import Mathlib

/-!
Verification development for the haplotype-analysis pipeline in
`hapy/stats/stats.py`.

Shallow embedding conventions:
* A per-variant slice of the genotype table (one `AA_ID`) is an `AAdf`:
  the row index (`ids`, the variant row names) together with the
  sample-copy columns, each column stored as its pandas column name and
  its per-row character calls (the table is kept column-major, which is
  the transpose the source itself takes first in `makehaplodf`).
* Python floats are modelled as `ℚ`; `np.nan` cells become `none` of an
  `Option`.
* External library calls (scipy's `chi2.sf` and `f.sf`, sklearn's
  `log_loss`, statsmodels' fitted models, Python's float formatting)
  are abstract parameters: a statsmodels fit result is a `FittedModel`
  record of exactly the fields the source reads.
* pandas `DataFrame.drop` of an absent column label raises `KeyError`;
  fallible paths therefore return `Except PdErr`.
-/

deriving instance DecidableEq for Except

/-- Errors raised by the Python runtime that the embedded code can hit:
`KeyError` from `DataFrame.drop` on an absent label, and `NameError`
from reading a never-assigned local variable. -/
inductive PdErr where
  | keyError : PdErr
  | nameError : PdErr
deriving DecidableEq, Repr

/-- A fitted statsmodels regression result, reduced to exactly the fields
the source reads: log-likelihood `llf`, model/residual degrees of freedom,
residual sum of squares `ssr`, dispersion `scale`, and the in-sample
predictions `model.predict()` used by `deviance`. -/
structure FittedModel where
  llf : ℚ
  df_model : ℚ
  df_resid : ℚ
  ssr : ℚ
  scale : ℚ
  pred : List ℚ
deriving DecidableEq

/-- Embedding of `lrtest(nullmodel, altmodel)`: the scipy survival
function `stats.chi2.sf` is an abstract parameter `chi2sf`. -/
def lrtest (chi2sf : ℚ → ℚ → ℚ) (nullmodel altmodel : FittedModel) : ℚ × ℚ :=
  let lr := 2 * (altmodel.llf - nullmodel.llf)
  let dof := altmodel.df_model - nullmodel.df_model
  (lr, chi2sf lr dof)

/-- Embedding of `deviance(ytrue, model)`: sklearn's `log_loss` (with
`normalize=False`) is the abstract parameter `log_loss`; the source
column-stacks `1-ypred` and `ypred`, modelled as a list of pairs. -/
def deviance (log_loss : List ℚ → List (ℚ × ℚ) → ℚ)
    (ytrue : List ℚ) (model : FittedModel) : ℚ :=
  let ypred := model.pred.map (fun p => (1 - p, p))
  2 * log_loss ytrue ypred

/-- Embedding of `anova(nullmodel, altmodel, ytrue, modeltype)`: scipy's
`stats.f.sf` is the abstract parameter `fsf`. -/
def anova (log_loss : List ℚ → List (ℚ × ℚ) → ℚ) (fsf : ℚ → ℚ → ℚ → ℚ)
    (nullmodel altmodel : FittedModel) (ytrue : List ℚ) (modeltype : String) :
    ℚ × ℚ :=
  let ssrs :=
    if modeltype == "logit" then
      (deviance log_loss ytrue altmodel, deviance log_loss ytrue nullmodel)
    else
      (altmodel.ssr, nullmodel.ssr)
  let alt_ssr := ssrs.1
  let null_ssr := ssrs.2
  let dof := nullmodel.df_resid - altmodel.df_resid
  let fvalue := (null_ssr - alt_ssr) / dof / altmodel.scale
  (fvalue, fsf fvalue dof altmodel.df_resid)

/-- Result of the Python-untyped `checkAAblock`, which returns either a
plain string or the original list-shaped block. -/
inductive AAres where
  | ofStr : String → AAres
  | ofList : List String → AAres
deriving DecidableEq, Repr

/-- The flattened character multiset of an amino-acid block:
`[x for i in aablock for x in list(i)]`. -/
def blockChars (aablock : List String) : List Char :=
  (aablock.map String.toList).flatten

/-- The comparison key of the source's
`sorted(counter.items(), key=count, reverse=True)`: `a` may come before
`b` when `a`'s count is at least `b`'s. -/
def countGE (chars : List Char) (a b : Char) : Prop :=
  chars.count b ≤ chars.count a

instance (chars : List Char) : DecidableRel (countGE chars) := fun _ _ =>
  inferInstanceAs (Decidable (_ ≤ _))

instance (chars : List Char) : IsTotal Char (countGE chars) :=
  ⟨fun a b => Or.symm (Nat.le_total (chars.count a) (chars.count b))⟩

instance (chars : List Char) : IsTrans Char (countGE chars) :=
  ⟨fun _ _ _ hab hbc => le_trans hbc hab⟩

/-- The branch body of `checkAAblock` once the distinct amino acids have
been counted and sorted by descending count into `keys` (the order of
`Counter` keys among equal counts is irrelevant to every branch test).
Python indexes `aakeys[0]`, `aakeys[1]` and `aablock[0]` only inside
branches that guarantee the index exists, so `getD`/`headD` defaults are
never reached. -/
def resolveBlock (aablock : List String) (chars : List Char) (keys : List Char) : AAres :=
  if 1 < keys.length then
    if chars.count (keys.getD 0 '?') ≠ chars.count (keys.getD 1 '?') then
      AAres.ofStr (String.mk [keys.getD 0 '?'])
    else
      AAres.ofList aablock
  else if keys.length = 1 then
    AAres.ofStr (aablock.headD "")
  else
    AAres.ofStr ""

/-- Embedding of `checkAAblock(aablock)`: flatten the block to single
characters, count them, sort the distinct characters by descending count,
then resolve per the source's branch ladder. -/
def checkAAblock (aablock : List String) : AAres :=
  let chars := blockChars aablock
  resolveBlock aablock chars (List.insertionSort (countGE chars) chars.dedup)

/-- Python truthiness of a `checkAAblock` result (`if block:`). -/
def AAres.isTruthy : AAres → Bool
  | .ofStr s => !s.toList.isEmpty
  | .ofList l => !l.isEmpty

/-- `i.split("_")[-1]`: the residue-letter suffix of a variant ID, the
characters after the last underscore (the whole string when there is
none). -/
def lastField (s : String) : String :=
  String.mk (s.toList.foldl (fun acc c => if c == '_' then [] else acc ++ [c]) [])

/-- `x.split(".")[0]`: the base sample identifier of a sample-copy
column name, the characters before the first dot. -/
def baseIdOf (s : String) : String :=
  String.mk (s.toList.takeWhile (fun c => c != '.'))

/-- `np.where((haplo=="P")|(haplo=="T")|(haplo=="p"))[0]`: positions of
the presence markers within one haplotype label. -/
def presenceIdx (s : String) : List Nat :=
  ((s.toList.enum).filter (fun p => p.2 == 'P' || p.2 == 'T' || p.2 == 'p')).map (fun p => p.1)

/-- Embedding of `get_aminoacids(idlist, haplotypes)`: for each haplotype
label, gather the residue letters at its presence positions and resolve
the block; keep the truthy results in haplotype order. -/
def get_aminoacids (idlist : List String) (haplotypes : List String) : List AAres :=
  let aalist := idlist.map lastField
  haplotypes.foldr
    (fun x acc =>
      let block := (presenceIdx x).filterMap (fun i => aalist.get? i)
      let b := checkAAblock block
      if b.isTruthy then b :: acc else acc)
    []

/-- Embedding of `getRefAA(haplo, aalist)`. -/
def getRefAA (haplo : String) (aalist : List String) : AAres :=
  let aminoacids := aalist.map lastField
  checkAAblock ((presenceIdx haplo).filterMap (fun i => aminoacids.get? i))

/-- Lexicographic order on character lists, the order pandas uses when
sorting the grouped index and the unstacked column labels. -/
def charListLt : List Char → List Char → Bool
  | _, [] => false
  | [], _ :: _ => true
  | a :: as, b :: bs => if a < b then true else if b < a then false else charListLt as bs

/-- Ascending string sort (pandas sorts the grouped index and the
unstacked column labels); applied only to deduplicated lists. No proof
in this development depends on the ordering, only on the result being a
permutation of the input. -/
def sortStr (l : List String) : List String :=
  List.insertionSort (fun a b : String => charListLt a.toList b.toList = true) l

/-- One variant's hard-call data slice: the row index (variant IDs) and
the sample-copy columns, each as (pandas column name, per-row character
calls in row order). This is the column-major view of the `aadf`
dataframe, matching the transpose `makehaplodf` takes. -/
structure AAdf where
  ids : List String
  cols : List (String × List Char)
deriving DecidableEq

/-- The (base sample id, haplotype label) of every sample-copy column:
the label is the row-wise concatenation `"".join(x)` and the base id is
the column name truncated at the first dot. -/
def copiesOf (aadf : AAdf) : List (String × String) :=
  aadf.cols.map (fun c => (baseIdOf c.1, String.mk c.2))

/-- `df.groupby(["index","haplo"]).size().unstack(fill_value=0)` cell:
how many of sample `b`'s haplotype copies carry label `l`. -/
def entryOf (copies : List (String × String)) (b l : String) : Nat :=
  (copies.filter (fun c => c.1 == b && c.2 == l)).length

/-- Column sum `df.sum(0)` of one label column of the count matrix. -/
def colSumOf (copies : List (String × String)) (rows : List String) (l : String) : Nat :=
  (rows.map (fun b => entryOf copies b l)).sum

/-- The per-column QC test `df.sum(0)/2/df.shape[0] > 0.01` of
`makehaplodf`, with the column sum `s` and the base-sample count `n`. -/
def qcPass (s n : ℕ) : Prop := (1:ℚ)/100 < (s:ℚ)/2/(n:ℚ)

instance (s n : ℕ) : Decidable (qcPass s n) :=
  decidable_of_iff (0 < n ∧ 2 * n < 100 * s) (by
    constructor
    · rintro ⟨hn, h⟩
      unfold qcPass
      rw [div_div, div_lt_div_iff₀ (by norm_num) (by positivity)]
      calc (1:ℚ) * (2 * n) = 2 * n := by ring
      _ < 100 * s := by exact_mod_cast h
      _ = (s:ℚ) * 100 := by ring
    · intro h
      unfold qcPass at h
      rcases Nat.eq_zero_or_pos n with hn | hn
      · subst hn; norm_num at h
      · refine ⟨hn, ?_⟩
        rw [div_div, div_lt_div_iff₀ (by norm_num) (by positivity)] at h
        have h2 : (2:ℚ) * n < 100 * s := by linarith
        exact_mod_cast h2)

/-- The unstacked haplotype count matrix: sorted distinct base sample ids
(rows), the retained label columns, and the underlying sample-copy
pairs that determine every cell via `entryOf`. -/
structure HaploDF where
  rows : List String
  cols : List String
  copies : List (String × String)
deriving DecidableEq

/-- Cell of the count matrix. -/
def HaploDF.entry (df : HaploDF) (b l : String) : Nat :=
  entryOf df.copies b l

/-- Column sum of the count matrix. -/
def HaploDF.colSum (df : HaploDF) (l : String) : Nat :=
  colSumOf df.copies df.rows l

/-- Embedding of `makehaplodf(aa_df, basicQC)`: build the sample-copy
haplotype labels, group to a count matrix with sorted rows and sorted
label columns, optionally drop the label columns failing
`df.sum(0)/2/df.shape[0] > 0.01`, and resolve the represented amino
acids of the surviving labels. -/
def makehaplodf (aa_df : AAdf) (basicQC : Bool := true) : HaploDF × List AAres :=
  let copies := copiesOf aa_df
  let rows := sortStr (copies.map (fun c => c.1)).dedup
  let cols0 := sortStr (copies.map (fun c => c.2)).dedup
  let cols :=
    if basicQC then
      cols0.filter (fun l => decide (qcPass (colSumOf copies rows l) rows.length))
    else
      cols0
  let aminoacids := get_aminoacids aa_df.ids cols
  (⟨rows, cols, copies⟩, aminoacids)

/-- `np.argmax`: index of the first maximum of a list of column sums
(`0` on the empty list, which numpy would reject; the source only calls
it on nonempty column sets). -/
def np_argmax : List Nat → Nat
  | [] => 0
  | v :: vs =>
    let j := np_argmax vs
    if vs.getD j 0 > v then j + 1 else 0

/-- `DataFrame.drop(label, axis=1)`: removes the column, raising
`KeyError` when the label is not a column. -/
def dropCol (cols : List String) (label : String) : Except PdErr (List String) :=
  if label ∈ cols then .ok (cols.filter (fun c => c != label)) else .error .keyError

/-- The tuple `obt_haplo_hard` returns. `cols` stands for the returned
`haplodf`'s column labels (the matrix content is `entryOf` of the slice's
copies restricted to these labels); `aalist` entries are `AAres.ofStr`
for the plain Python strings of the single-row branch. -/
structure HaploResult where
  cols : List String
  AAcount : Nat
  refAA : AAres
  aalist : List AAres
  haplocount : Nat
deriving DecidableEq

/-- Embedding of `obt_haplo_hard(aadf)`: multi-row blocks drop the
all-absence sentinel (via `drop(missing)`) or else the majority column;
single-row blocks drop the majority label when more than one survives,
otherwise append a synthetic "missing" category. -/
def obt_haplo_hard (aadf : AAdf) : Except PdErr HaploResult :=
  if 1 < aadf.ids.length then
    let haplodf := (makehaplodf aadf).1
    let aalist := (makehaplodf aadf).2
    let AAcount := haplodf.cols.length
    let missing := String.mk (List.replicate aadf.ids.length 'A')
    let missing2 := String.mk (List.replicate aadf.ids.length 'a')
    if missing ∈ haplodf.cols ∨ missing2 ∈ haplodf.cols then
      match dropCol haplodf.cols missing with
      | .error e => .error e
      | .ok cols2 => .ok ⟨cols2, AAcount, AAres.ofStr "missing", aalist, cols2.length⟩
    else
      let sums := haplodf.cols.map (fun l => haplodf.colSum l)
      let refcol := haplodf.cols.getD (np_argmax sums) ""
      match dropCol haplodf.cols refcol with
      | .error e => .error e
      | .ok cols2 => .ok ⟨cols2, AAcount, getRefAA refcol aadf.ids, aalist, cols2.length⟩
  else
    let haplodf := (makehaplodf aadf).1
    let aalist := haplodf.cols
    if 1 < aalist.length then
      let sums := haplodf.cols.map (fun l => haplodf.colSum l)
      let refcol := haplodf.cols.getD (np_argmax sums) ""
      match dropCol haplodf.cols refcol with
      | .error e => .error e
      | .ok cols2 => .ok ⟨cols2, 2, AAres.ofStr refcol, aalist.map AAres.ofStr, cols2.length⟩
    else
      let aalist2 := aalist ++ ["missing"]
      .ok ⟨haplodf.cols, 0, AAres.ofStr (aalist2.headD ""),
           aalist2.map AAres.ofStr, haplodf.cols.length⟩

/-- One output row of `analyseAA`, restricted to the statistic fields the
tier dispatch writes (`np.nan` is `none`). The identity fields
(VARIANT, GENE, AA_POS) are verbatim passthroughs of the slice ids, and
the Amino_Acids field is a join over a Python `set`, whose iteration
order is implementation-defined; neither is modelled. -/
structure AArow where
  LR_p : Option ℚ
  Anova_p : Option ℚ
  multi_Coef : Option String
  Uni_p : Option ℚ
  Uni_Coef : Option ℚ
  Ref_AA : Option AAres
deriving DecidableEq

/-- The per-variant tier dispatch of `analyseAA` (the body of the loop
after `obt_haplo_*` has produced `AAcount` and `refAA`): the statsmodels
fits hidden inside `obt` and `linear_model` are abstracted as their
returned values `obtRes = (lrp, anovap, multicoef)` and
`lmRes = (uni_p, coef)`, and Python float formatting `str(x)` as
`pyFloatStr`. -/
def analyseAAvariant (pyFloatStr : ℚ → String) (AAcount : Nat) (refAA : AAres)
    (obtRes : ℚ × ℚ × List ℚ) (lmRes : ℚ × ℚ) : AArow :=
  if 2 < AAcount then
    let multicoef := String.intercalate ", " (obtRes.2.2.map pyFloatStr)
    ⟨some obtRes.1, some obtRes.2.1, some multicoef, none, none, some refAA⟩
  else if AAcount = 2 then
    ⟨none, none, none, some lmRes.1, some lmRes.2, some refAA⟩
  else
    ⟨none, none, none, none, none, none⟩

/-- The derived column
`output[["LR_p","Uni_p"]].fillna(0).sum(1).replace(0, np.nan)`
of `analyseAA`, per row. -/
def LRpUnip (lrp unip : Option ℚ) : Option ℚ :=
  let s := lrp.getD 0 + unip.getD 0
  if s = 0 then none else some s

/-- One output row of `analyseSNP` (identity fields omitted as verbatim
passthroughs). `Uni_p`/`Uni_Coef` are explicitly assigned `np.nan` in the
non-univariate branch, but `CI_0.025`/`CI_0.975` are whatever floats the
loop variables `conf_int1`/`conf_int2` currently hold. -/
structure SNPRow where
  uni_p : Option ℚ
  coef : Option ℚ
  ci1 : ℚ
  ci2 : ℚ
deriving DecidableEq

/-- The hard-call variant loop of `analyseSNP`: `st` models the Python
local variables `conf_int1, conf_int2`, unassigned (`none`) before the
first univariate variant — reading them then raises `NameError`. The
statsmodels fit of `linear_model` on the assembled analysis table is
abstracted as `lm`, a function of the variant's slice only (the covariate
table and model type are fixed throughout one call). -/
def analyseSNPhard (lm : AAdf → ℚ × ℚ × ℚ × ℚ) (st : Option (ℚ × ℚ)) :
    List AAdf → Except PdErr (List SNPRow)
  | [] => .ok []
  | v :: vs =>
    match obt_haplo_hard v with
    | .error e => .error e
    | .ok r =>
      if r.AAcount = 2 then
        let res := lm v
        match analyseSNPhard lm (some (res.2.2.1, res.2.2.2)) vs with
        | .error e => .error e
        | .ok rest => .ok (⟨some res.1, some res.2.1, res.2.2.1, res.2.2.2⟩ :: rest)
      else
        match st with
        | some ab =>
          match analyseSNPhard lm st vs with
          | .error e => .error e
          | .ok rest => .ok (⟨none, none, ab.1, ab.2⟩ :: rest)
        | none => .error .nameError

/-- `bases.count b` for the two-copies-per-sample hypothesis, written as
a filter length. -/
def copyCount (bases : List String) (b : String) : Nat :=
  (bases.filter (fun x => x == b)).length

/-- A two-row hard-call block whose only haplotype label is the lowercase
all-absence string "aa" (one sample, both copies absent at both rows). -/
def blockLowerAbsent : AAdf :=
  ⟨["AA_G_1_10_F", "AA_G_1_10_S"], [("s", ['a', 'a']), ("s.1", ['a', 'a'])]⟩

/-- The same block with the uppercase all-absence label "AA". -/
def blockUpperAbsent : AAdf :=
  ⟨["AA_G_1_10_F", "AA_G_1_10_S"], [("s", ['A', 'A']), ("s.1", ['A', 'A'])]⟩

/-- Single-row SNP slice with two surviving alleles (univariate tier). -/
def snpV1 : AAdf := ⟨["id_A"], [("s", ['A']), ("s.1", ['T'])]⟩

/-- As `snpV1` but with two samples, so a fit oracle reading the slice
returns different numbers; still exactly two surviving alleles. -/
def snpV1b : AAdf :=
  ⟨["id_A"], [("s", ['A']), ("s.1", ['T']), ("u", ['A']), ("u.1", ['T'])]⟩

/-- Single-row SNP slice with a single surviving allele
(`AAcount = 0`, the not-applicable tier). -/
def snpV2 : AAdf := ⟨["id_T"], [("t", ['T']), ("t.1", ['T'])]⟩

/-- A concrete fit oracle whose confidence-interval outputs depend on the
variant's own data slice (here: its sample-copy count). -/
def lmDemo : AAdf → ℚ × ℚ × ℚ × ℚ :=
  fun v => (1, 1, (v.cols.length : ℚ), (v.cols.length : ℚ))

/-- Single-row hard-call block with one sample and alleles A and T, used
as a concrete witness input. -/
def c5Block : AAdf := ⟨["X_A"], [("s", ['A']), ("s.1", ['T'])]⟩

/-- Claim C6: for every pair of fitted models, `lrtest` returns the
statistic `2 * (alt.llf - null.llf)`, and its p-value is the chi-square
survival function applied to that statistic with
`alt.df_model - null.df_model` degrees of freedom. -/
theorem claim_C6_lrtest (chi2sf : ℚ → ℚ → ℚ) (nullmodel altmodel : FittedModel) :
    lrtest chi2sf nullmodel altmodel =
      (2 * (altmodel.llf - nullmodel.llf),
       chi2sf (2 * (altmodel.llf - nullmodel.llf))
         (altmodel.df_model - nullmodel.df_model)) := rfl

/-- Claim C7: `anova` uses twice the unnormalized log-loss of true versus
predicted class probabilities as the residual term when `modeltype` is
exactly "logit", and the residual sum of squares otherwise; the F statistic
is (null residual - alt residual) / (null df_resid - alt df_resid) /
alt.scale, and the p-value is the F survival function at
(df difference, alt.df_resid). -/
theorem claim_C7_anova (log_loss : List ℚ → List (ℚ × ℚ) → ℚ)
    (fsf : ℚ → ℚ → ℚ → ℚ) (nullmodel altmodel : FittedModel)
    (ytrue : List ℚ) (modeltype : String) :
    (deviance log_loss ytrue altmodel =
        2 * log_loss ytrue (altmodel.pred.map (fun p => (1 - p, p))))
    ∧ (modeltype = "logit" →
        anova log_loss fsf nullmodel altmodel ytrue modeltype =
          ((deviance log_loss ytrue nullmodel - deviance log_loss ytrue altmodel)
              / (nullmodel.df_resid - altmodel.df_resid) / altmodel.scale,
           fsf ((deviance log_loss ytrue nullmodel - deviance log_loss ytrue altmodel)
              / (nullmodel.df_resid - altmodel.df_resid) / altmodel.scale)
             (nullmodel.df_resid - altmodel.df_resid) altmodel.df_resid))
    ∧ (modeltype ≠ "logit" →
        anova log_loss fsf nullmodel altmodel ytrue modeltype =
          ((nullmodel.ssr - altmodel.ssr)
              / (nullmodel.df_resid - altmodel.df_resid) / altmodel.scale,
           fsf ((nullmodel.ssr - altmodel.ssr)
              / (nullmodel.df_resid - altmodel.df_resid) / altmodel.scale)
             (nullmodel.df_resid - altmodel.df_resid) altmodel.df_resid)) := by
  refine ⟨rfl, ?_, ?_⟩
  · intro h
    subst h
    rfl
  · intro h
    have hb : (modeltype == "logit") = false := by
      simpa [beq_iff_eq] using h
    simp [anova, hb]

/-- Witness for claim C7: both branches evaluated at concrete inputs. -/
theorem claim_C7_witness :
    ("logit" = "logit"
      ∧ anova (fun _ _ => 3) (fun _ _ _ => 5)
          ⟨0, 0, 4, 7, 1, []⟩ ⟨0, 0, 2, 6, 1, []⟩ [] "logit" = ((6 - 6) / (4 - 2) / 1, 5))
    ∧ ("linear" ≠ "logit"
      ∧ anova (fun _ _ => 3) (fun _ _ _ => 5)
          ⟨0, 0, 4, 7, 1, []⟩ ⟨0, 0, 2, 6, 1, []⟩ [] "linear" = ((7 - 6) / (4 - 2) / 1, 5)) := by
  refine ⟨⟨rfl, ?_⟩, ⟨by decide, ?_⟩⟩
  · rw [(claim_C7_anova (fun _ _ => 3) (fun _ _ _ => 5)
      ⟨0, 0, 4, 7, 1, []⟩ ⟨0, 0, 2, 6, 1, []⟩ [] "logit").2.1 rfl]
    norm_num [deviance]
  · rw [(claim_C7_anova (fun _ _ => 3) (fun _ _ _ => 5)
      ⟨0, 0, 4, 7, 1, []⟩ ⟨0, 0, 2, 6, 1, []⟩ [] "linear").2.2 (by decide)]

/-- Pointwise sums split over a list map. -/
lemma list_sum_map_add {α M : Type} [AddCommMonoid M] (l : List α) (f g : α → M) :
    (l.map (fun a => f a + g a)).sum = (l.map f).sum + (l.map g).sum := by
  induction l with
  | nil => simp
  | cons x xs ih => simp [ih, add_add_add_comm]

/-- An indicator over a list free of `z` sums to zero. -/
lemma list_sum_indicator_zero {α : Type} [DecidableEq α] (ys : List α) (z : α)
    (hz : z ∉ ys) :
    (ys.map (fun y => if z == y then (1:ℕ) else 0)).sum = 0 := by
  induction ys with
  | nil => simp
  | cons y ys ih =>
    have hzy : z ≠ y := fun h => hz (h ▸ List.mem_cons_self y ys)
    have hmem : z ∉ ys := fun h => hz (List.mem_cons_of_mem y h)
    have hb : (z == y) = false := beq_eq_false_iff_ne.mpr hzy
    rw [List.map_cons, List.sum_cons, ih hmem, hb]
    simp

/-- An indicator over a duplicate-free list containing `z` sums to one. -/
lemma list_sum_indicator_one {α : Type} [DecidableEq α] (ys : List α) (z : α)
    (hnd : ys.Nodup) (hz : z ∈ ys) :
    (ys.map (fun y => if z == y then (1:ℕ) else 0)).sum = 1 := by
  induction ys with
  | nil => cases hz
  | cons y ys ih =>
    rcases List.mem_cons.mp hz with h | h
    · subst h
      have hout : z ∉ ys := (List.nodup_cons.mp hnd).1
      rw [List.map_cons, List.sum_cons, list_sum_indicator_zero ys z hout]
      simp
    · have hzy : z ≠ y := by
        rintro rfl
        exact (List.nodup_cons.mp hnd).1 h
      have hb : (z == y) = false := beq_eq_false_iff_ne.mpr hzy
      rw [List.map_cons, List.sum_cons, ih (List.nodup_cons.mp hnd).2 h, hb]
      simp

/-- Fibering a list over a duplicate-free list of keys covering the image
of `f` recovers the total length. -/
lemma list_sum_filter_length {α β : Type} [DecidableEq β] (xs : List α)
    (ys : List β) (f : α → β) (hnd : ys.Nodup) (hsub : ∀ x ∈ xs, f x ∈ ys) :
    (ys.map (fun y => (xs.filter (fun a => f a == y)).length)).sum = xs.length := by
  induction xs with
  | nil => simp
  | cons x xs ih =>
    have hstep : ∀ y ∈ ys,
        ((x :: xs).filter (fun a => f a == y)).length =
          (if f x == y then (1:ℕ) else 0) + (xs.filter (fun a => f a == y)).length := by
      intro y _
      by_cases h : (f x == y) = true
      · simp only [List.filter_cons, h, if_true, List.length_cons]
        omega
      · simp [List.filter_cons, h]
    rw [List.map_congr_left hstep, list_sum_map_add,
      list_sum_indicator_one ys (f x) hnd (hsub x (List.mem_cons_self x xs)),
      ih (fun a ha => hsub a (List.mem_cons_of_mem x ha))]
    simp [Nat.add_comm]

/-- Double list sums commute. -/
lemma list_sum_comm {α β M : Type} [AddCommMonoid M] (xs : List α) (ys : List β)
    (f : α → β → M) :
    (xs.map (fun x => (ys.map (fun y => f x y)).sum)).sum
      = (ys.map (fun y => (xs.map (fun x => f x y)).sum)).sum := by
  induction xs with
  | nil => simp
  | cons x xs ih => simp [ih, list_sum_map_add]

/-- Division by a constant factors out of a list sum. -/
lemma list_sum_map_div {α : Type} (l : List α) (f : α → ℚ) (d : ℚ) :
    (l.map (fun a => f a / d)).sum = (l.map f).sum / d := by
  induction l with
  | nil => simp
  | cons x xs ih => simp [ih, add_div]

/-- Casting a natural list sum to the rationals. -/
lemma list_sum_map_natCast {α : Type} (l : List α) (f : α → ℕ) :
    (l.map (fun a => (f a : ℚ))).sum = (((l.map f).sum : ℕ) : ℚ) := by
  induction l with
  | nil => simp
  | cons x xs ih =>
    rw [List.map_cons, List.sum_cons, ih, List.map_cons, List.sum_cons]
    push_cast
    ring

/-- A constant list map sums to the constant times the length. -/
lemma list_sum_map_two {α : Type} (l : List α) :
    (l.map (fun _ => (2:ℕ))).sum = 2 * l.length := by
  induction l with
  | nil => simp
  | cons x xs ih =>
    rw [List.map_cons, List.sum_cons, ih, List.length_cons]
    omega

/-- `np_argmax` of a nonempty list is a valid index. -/
lemma np_argmax_lt (l : List ℕ) (h : l ≠ []) : np_argmax l < l.length := by
  induction l with
  | nil => exact absurd rfl h
  | cons v vs ih =>
    by_cases hc : vs.getD (np_argmax vs) 0 > v
    · have hvs : vs ≠ [] := by
        rintro rfl
        simp [List.getD] at hc
      have := ih hvs
      simp only [np_argmax, hc, if_pos, List.length_cons]
      omega
    · simp only [np_argmax, hc, if_neg, List.length_cons, if_false]
      omega

/-- Every entry of a list is at most the entry at `np_argmax`. -/
lemma np_argmax_getD_le (l : List ℕ) (i : ℕ) :
    l.getD i 0 ≤ l.getD (np_argmax l) 0 := by
  induction l generalizing i with
  | nil => simp [List.getD]
  | cons v vs ih =>
    by_cases hc : vs.getD (np_argmax vs) 0 > v
    · simp only [np_argmax, hc, if_pos]
      cases i with
      | zero => simpa [List.getD_cons_zero, List.getD_cons_succ] using le_of_lt hc
      | succ i => simpa [List.getD_cons_succ] using ih i
    · simp only [np_argmax, hc, if_neg, if_false]
      cases i with
      | zero => simp
      | succ i =>
        simp only [List.getD_cons_succ, List.getD_cons_zero]
        exact le_trans (ih i) (Nat.not_lt.mp hc)

/-- `sortStr` permutes its input. -/
lemma sortStr_perm (l : List String) : List.Perm (sortStr l) l :=
  List.perm_insertionSort _ l

/-- Membership is invariant under `sortStr`. -/
lemma mem_sortStr {a : String} {l : List String} : a ∈ sortStr l ↔ a ∈ l :=
  (sortStr_perm l).mem_iff

/-- `sortStr` preserves freedom from duplicates. -/
lemma sortStr_nodup {l : List String} (h : l.Nodup) : (sortStr l).Nodup :=
  ((sortStr_perm l).nodup_iff).mpr h

/-- `sortStr` preserves length. -/
lemma sortStr_length (l : List String) : (sortStr l).length = l.length :=
  (sortStr_perm l).length_eq

/-- A matrix cell fibered first by label, then by sample. -/
lemma entryOf_eq_filter (copies : List (String × String)) (b l : String) :
    entryOf copies b l
      = ((copies.filter (fun c => c.2 == l)).filter (fun c => c.1 == b)).length := by
  rw [entryOf, List.filter_filter]

/-- A matrix cell fibered first by sample, then by label. -/
lemma entryOf_eq_filter2 (copies : List (String × String)) (b l : String) :
    entryOf copies b l
      = ((copies.filter (fun c => c.1 == b)).filter (fun c => c.2 == l)).length := by
  rw [entryOf, List.filter_filter]
  congr 1
  apply List.filter_congr
  intro c _
  exact Bool.and_comm _ _

/-- Summing a label's column over all matrix rows counts exactly the
sample-copies carrying that label. -/
lemma colSumOf_eq_label_count (copies : List (String × String)) (rows : List String)
    (hnd : rows.Nodup) (hsub : ∀ c ∈ copies, c.1 ∈ rows) (l : String) :
    colSumOf copies rows l = (copies.filter (fun c => c.2 == l)).length := by
  unfold colSumOf
  have h1 : ∀ b ∈ rows, entryOf copies b l
      = ((copies.filter (fun c => c.2 == l)).filter (fun c => c.1 == b)).length :=
    fun b _ => entryOf_eq_filter copies b l
  rw [List.map_congr_left h1]
  exact list_sum_filter_length (copies.filter (fun c => c.2 == l)) rows (fun c => c.1)
    hnd (fun c hc => hsub c (List.mem_of_mem_filter hc))

/-- The grand total of the count matrix is the number of sample-copies. -/
lemma total_entries (copies : List (String × String)) (rows cols : List String)
    (hndr : rows.Nodup) (hndc : cols.Nodup)
    (hsubr : ∀ c ∈ copies, c.1 ∈ rows) (hsubc : ∀ c ∈ copies, c.2 ∈ cols) :
    (rows.map (fun b => (cols.map (fun l => entryOf copies b l)).sum)).sum
      = copies.length := by
  have hinner : ∀ b ∈ rows, (cols.map (fun l => entryOf copies b l)).sum
      = (copies.filter (fun c => c.1 == b)).length := by
    intro b _
    have h1 : ∀ l ∈ cols, entryOf copies b l
        = ((copies.filter (fun c => c.1 == b)).filter (fun c => c.2 == l)).length :=
      fun l _ => entryOf_eq_filter2 copies b l
    rw [List.map_congr_left h1]
    exact list_sum_filter_length (copies.filter (fun c => c.1 == b)) cols (fun c => c.2)
      hndc (fun c hc => hsubc c (List.mem_of_mem_filter hc))
  rw [List.map_congr_left hinner]
  exact list_sum_filter_length copies rows (fun c => c.1) hndr hsubr

/-- The matrix returned by `makehaplodf` without QC. -/
lemma makehaplodf_false_eq (aadf : AAdf) :
    (makehaplodf aadf false).1 =
      ⟨sortStr ((copiesOf aadf).map (fun c => c.1)).dedup,
       sortStr ((copiesOf aadf).map (fun c => c.2)).dedup,
       copiesOf aadf⟩ := by
  simp [makehaplodf]

/-- The column labels retained by `makehaplodf` with QC are the
no-QC labels passing the frequency test. -/
lemma makehaplodf_true_eq (aadf : AAdf) :
    (makehaplodf aadf true).1 =
      ⟨sortStr ((copiesOf aadf).map (fun c => c.1)).dedup,
       (sortStr ((copiesOf aadf).map (fun c => c.2)).dedup).filter
         (fun l => decide (qcPass
           (colSumOf (copiesOf aadf) (sortStr ((copiesOf aadf).map (fun c => c.1)).dedup) l)
           (sortStr ((copiesOf aadf).map (fun c => c.1)).dedup).length)),
       copiesOf aadf⟩ := by
  simp [makehaplodf]

/-- Claim C4: with `basicQC` enabled, a haplotype-label column survives
`makehaplodf` if and only if it is a label column at all and its column
total divided by twice the base-sample count strictly exceeds 0.01. -/
theorem claim_C4_qc_threshold (aadf : AAdf) (l : String) :
    l ∈ (makehaplodf aadf true).1.cols ↔
      (l ∈ (makehaplodf aadf false).1.cols ∧
        (1:ℚ)/100 < ((makehaplodf aadf false).1.colSum l : ℚ)
          / (2 * ((makehaplodf aadf false).1.rows.length : ℚ))) := by
  rw [makehaplodf_true_eq, makehaplodf_false_eq]
  show _ ∈ List.filter _ _ ↔ _
  rw [List.mem_filter]
  simp only [decide_eq_true_eq]
  unfold qcPass HaploDF.colSum
  rw [div_div]

/-- Claim C5: when every base sample contributes exactly two haplotype
copies, the count matrix of `makehaplodf` without QC has grand total
`2 × (number of base samples)`, and its column totals divided by
`2 × (row count)` sum to exactly one. -/
theorem claim_C5_mass_conservation (aadf : AAdf) (h0 : aadf.cols ≠ [])
    (h2 : ∀ b ∈ (copiesOf aadf).map (fun c => c.1),
        copyCount ((copiesOf aadf).map (fun c => c.1)) b = 2) :
    (((makehaplodf aadf false).1.rows.map (fun b =>
        ((makehaplodf aadf false).1.cols.map (fun l =>
          (makehaplodf aadf false).1.entry b l)).sum)).sum
      = 2 * (makehaplodf aadf false).1.rows.length)
    ∧ (((makehaplodf aadf false).1.cols.map (fun l =>
        ((makehaplodf aadf false).1.colSum l : ℚ)
          / (2 * ((makehaplodf aadf false).1.rows.length : ℚ)))).sum = 1) := by
  rw [makehaplodf_false_eq]
  set copies := copiesOf aadf with hcopies
  set bases := copies.map (fun c => c.1) with hbases
  set rows := sortStr bases.dedup with hrows
  set cols := sortStr (copies.map (fun c => c.2)).dedup with hcols
  have hndr : rows.Nodup := sortStr_nodup (List.nodup_dedup _)
  have hndc : cols.Nodup := sortStr_nodup (List.nodup_dedup _)
  have hsubr : ∀ c ∈ copies, c.1 ∈ rows := by
    intro c hc
    rw [hrows, mem_sortStr, List.mem_dedup]
    exact List.mem_map_of_mem _ hc
  have hsubc : ∀ c ∈ copies, c.2 ∈ cols := by
    intro c hc
    rw [hcols, mem_sortStr, List.mem_dedup]
    exact List.mem_map_of_mem _ hc
  have htotal : (rows.map (fun b => (cols.map (fun l => entryOf copies b l)).sum)).sum
      = copies.length := total_entries copies rows cols hndr hndc hsubr hsubc
  have hcount : copies.length = 2 * rows.length := by
    have hfib : (rows.map (fun y => (bases.filter (fun a => a == y)).length)).sum
        = bases.length := by
      refine list_sum_filter_length bases rows (fun a => a) hndr ?_
      intro x hx
      rw [hrows, mem_sortStr, List.mem_dedup]
      exact hx
    have hconst : ∀ y ∈ rows, (bases.filter (fun a => a == y)).length = 2 := by
      intro y hy
      have hyb : y ∈ bases := List.mem_dedup.mp (mem_sortStr.mp (hrows ▸ hy))
      exact h2 y hyb
    rw [List.map_congr_left hconst, list_sum_map_two] at hfib
    rw [hbases, List.length_map] at hfib
    omega
  have hpos : 0 < rows.length := by
    have hb : bases ≠ [] := by
      rw [hbases, hcopies]
      simp only [ne_eq, List.map_eq_nil_iff]
      intro hnil
      exact h0 (by simpa [copiesOf, List.map_eq_nil_iff] using hnil)
    have : bases.dedup ≠ [] := fun hd => hb ((List.dedup_eq_nil bases).mp hd)
    rw [hrows, sortStr_length]
    exact List.length_pos.mpr this
  constructor
  · show (rows.map (fun b => (cols.map (fun l => entryOf copies b l)).sum)).sum
        = 2 * rows.length
    rw [htotal, hcount]
  · show (cols.map (fun l =>
        ((colSumOf copies rows l : ℚ) / (2 * (rows.length : ℚ))))).sum = 1
    rw [list_sum_map_div cols (fun l => ((colSumOf copies rows l : ℚ))) (2 * (rows.length : ℚ)),
      list_sum_map_natCast cols (fun l => colSumOf copies rows l)]
    have hswap : ((cols.map (fun l => colSumOf copies rows l)).sum : ℕ)
        = (rows.map (fun b => (cols.map (fun l => entryOf copies b l)).sum)).sum := by
      unfold colSumOf
      rw [list_sum_comm]
    rw [hswap, htotal, hcount]
    have hne : (2 * (rows.length : ℚ)) ≠ 0 := by
      have : (rows.length : ℚ) ≠ 0 := by exact_mod_cast Nat.pos_iff_ne_zero.mp hpos
      positivity
    push_cast
    field_simp

/-- Witness for claim C5 at a concrete one-sample two-copy block. -/
theorem claim_C5_witness :
    (c5Block.cols ≠ [])
    ∧ (∀ b ∈ (copiesOf c5Block).map (fun c => c.1),
        copyCount ((copiesOf c5Block).map (fun c => c.1)) b = 2)
    ∧ (((makehaplodf c5Block false).1.rows.map (fun b =>
        ((makehaplodf c5Block false).1.cols.map (fun l =>
          (makehaplodf c5Block false).1.entry b l)).sum)).sum
      = 2 * (makehaplodf c5Block false).1.rows.length)
    ∧ (((makehaplodf c5Block false).1.cols.map (fun l =>
        ((makehaplodf c5Block false).1.colSum l : ℚ)
          / (2 * ((makehaplodf c5Block false).1.rows.length : ℚ)))).sum = 1) :=
  ⟨by decide, by decide,
   (claim_C5_mass_conservation c5Block (by decide) (by decide)).1,
   (claim_C5_mass_conservation c5Block (by decide) (by decide)).2⟩

/-- Claim C1 (failing input): on the two-row block whose only surviving
label is the lowercase all-absence string "aa", `obt_haplo_hard` takes
the all-absence branch but executes `haplodf.drop(missing)` with the
uppercase label "AA", which is not a column — a `KeyError` — instead of
dropping "aa" and reporting "missing". On the uppercase variant of the
same block the branch behaves as the claim describes. -/
theorem claim_C1_lowercase_keyerror :
    obt_haplo_hard blockLowerAbsent = .error .keyError
    ∧ obt_haplo_hard blockUpperAbsent
        = .ok ⟨[], 1, AAres.ofStr "missing", [], 0⟩ := by
  constructor <;> decide

/-- Claim C9 (failing input): in `analyseSNP`, the loop variables
`conf_int1`/`conf_int2` are only assigned in the univariate branch, so a
variant whose tier is not univariate reports the CI values computed for
the earlier univariate variant. Two runs that differ only in variant 1's
data slice (`snpV1` versus `snpV1b`; the oracle `lmDemo` is fixed) give
variant 2 (`snpV2`, identical in both runs, non-univariate tier) two
different output rows, carrying variant 1's CI values; and when no
earlier univariate variant exists the read raises `NameError`. -/
theorem claim_C9_stale_ci :
    analyseSNPhard lmDemo none [snpV1, snpV2]
      = .ok [⟨some 1, some 1, 2, 2⟩, ⟨none, none, 2, 2⟩]
    ∧ analyseSNPhard lmDemo none [snpV1b, snpV2]
      = .ok [⟨some 1, some 1, 4, 4⟩, ⟨none, none, 4, 4⟩]
    ∧ (⟨none, none, 2, 2⟩ : SNPRow) ≠ ⟨none, none, 4, 4⟩
    ∧ analyseSNPhard lmDemo none [snpV2] = .error .nameError := by
  refine ⟨by decide, by decide, by decide, by decide⟩

/-- Claim C2: tier selection in `analyseAA` follows exact thresholds on
`AAcount`: more than 2 gives the omnibus tier (LR p-value, ANOVA p-value
and the joined coefficient string, univariate fields NaN); exactly 2
gives the univariate tier (single p-value and coefficient, omnibus
fields NaN); any other count puts NaN in every statistic field and in
Ref_AA. -/
theorem claim_C2_tier_selection (pyFloatStr : ℚ → String) (AAcount : ℕ)
    (refAA : AAres) (obtRes : ℚ × ℚ × List ℚ) (lmRes : ℚ × ℚ) :
    (2 < AAcount →
      analyseAAvariant pyFloatStr AAcount refAA obtRes lmRes =
        ⟨some obtRes.1, some obtRes.2.1,
         some (String.intercalate ", " (obtRes.2.2.map pyFloatStr)),
         none, none, some refAA⟩)
    ∧ (AAcount = 2 →
      analyseAAvariant pyFloatStr AAcount refAA obtRes lmRes =
        ⟨none, none, none, some lmRes.1, some lmRes.2, some refAA⟩)
    ∧ (AAcount < 2 →
      analyseAAvariant pyFloatStr AAcount refAA obtRes lmRes =
        ⟨none, none, none, none, none, none⟩) := by
  refine ⟨fun h => ?_, fun h => ?_, fun h => ?_⟩
  · rw [analyseAAvariant, if_pos h]
  · rw [analyseAAvariant, if_neg (by omega), if_pos h]
  · rw [analyseAAvariant, if_neg (by omega), if_neg (by omega)]

/-- Witness for claim C2 at counts 3, 2 and 1. -/
theorem claim_C2_witness :
    (2 < 3 ∧ analyseAAvariant (fun _ => "c") 3 (AAres.ofStr "F") (1, 2, [3]) (4, 5)
      = ⟨some 1, some 2, some (String.intercalate ", " ([(3:ℚ)].map (fun _ => "c"))),
         none, none, some (AAres.ofStr "F")⟩)
    ∧ (analyseAAvariant (fun _ => "c") 2 (AAres.ofStr "F") (1, 2, [3]) (4, 5)
      = ⟨none, none, none, some 4, some 5, some (AAres.ofStr "F")⟩)
    ∧ (1 < 2 ∧ analyseAAvariant (fun _ => "c") 1 (AAres.ofStr "F") (1, 2, [3]) (4, 5)
      = ⟨none, none, none, none, none, none⟩) :=
  ⟨⟨by decide, (claim_C2_tier_selection (fun _ => "c") 3 (AAres.ofStr "F")
      (1, 2, [3]) (4, 5)).1 (by decide)⟩,
   (claim_C2_tier_selection (fun _ => "c") 2 (AAres.ofStr "F") (1, 2, [3]) (4, 5)).2.1 rfl,
   ⟨by decide, (claim_C2_tier_selection (fun _ => "c") 1 (AAres.ofStr "F")
      (1, 2, [3]) (4, 5)).2.2 (by decide)⟩⟩

/-- Claim C10 (counterexample): a variant on the not-applicable tier
(`AAcount = 1`) has both `LR_p` and `Uni_p` NaN, so it is not the case
that exactly one of them is non-NaN for every variant; its `LRp_Unip`
is NaN. -/
theorem claim_C10_counterexample :
    (analyseAAvariant (fun _ => "") 1 (AAres.ofStr "F") (0, 0, []) (0, 0)).LR_p = none
    ∧ (analyseAAvariant (fun _ => "") 1 (AAres.ofStr "F") (0, 0, []) (0, 0)).Uni_p = none
    ∧ LRpUnip
        (analyseAAvariant (fun _ => "") 1 (AAres.ofStr "F") (0, 0, []) (0, 0)).LR_p
        (analyseAAvariant (fun _ => "") 1 (AAres.ofStr "F") (0, 0, []) (0, 0)).Uni_p
      = none := by
  refine ⟨rfl, rfl, ?_⟩
  simp [LRpUnip, analyseAAvariant]

/-- Claim C10 (amended): `LRp_Unip` is the sum of `LR_p` and `Uni_p` with
NaN as 0, with an exact-zero sum replaced by NaN; at most one of
`LR_p`/`Uni_p` is non-NaN per variant; when one is non-NaN, `LRp_Unip`
equals that p-value unless it is exactly 0, which is reported as NaN;
when both are NaN, `LRp_Unip` is NaN. -/
theorem claim_C10_lrp_unip (pyFloatStr : ℚ → String) (AAcount : ℕ)
    (refAA : AAres) (obtRes : ℚ × ℚ × List ℚ) (lmRes : ℚ × ℚ) :
    (¬ ((analyseAAvariant pyFloatStr AAcount refAA obtRes lmRes).LR_p ≠ none
        ∧ (analyseAAvariant pyFloatStr AAcount refAA obtRes lmRes).Uni_p ≠ none))
    ∧ (∀ p : ℚ,
        (analyseAAvariant pyFloatStr AAcount refAA obtRes lmRes).LR_p = some p →
        LRpUnip (analyseAAvariant pyFloatStr AAcount refAA obtRes lmRes).LR_p
            (analyseAAvariant pyFloatStr AAcount refAA obtRes lmRes).Uni_p
          = if p = 0 then none else some p)
    ∧ (∀ p : ℚ,
        (analyseAAvariant pyFloatStr AAcount refAA obtRes lmRes).Uni_p = some p →
        LRpUnip (analyseAAvariant pyFloatStr AAcount refAA obtRes lmRes).LR_p
            (analyseAAvariant pyFloatStr AAcount refAA obtRes lmRes).Uni_p
          = if p = 0 then none else some p)
    ∧ (((analyseAAvariant pyFloatStr AAcount refAA obtRes lmRes).LR_p = none
        ∧ (analyseAAvariant pyFloatStr AAcount refAA obtRes lmRes).Uni_p = none) →
        LRpUnip (analyseAAvariant pyFloatStr AAcount refAA obtRes lmRes).LR_p
            (analyseAAvariant pyFloatStr AAcount refAA obtRes lmRes).Uni_p
          = none) := by
  by_cases h1 : 2 < AAcount
  · simp only [analyseAAvariant, if_pos h1]
    refine ⟨by simp, ?_, ?_, ?_⟩
    · intro p hp
      simp only [Option.some.injEq] at hp
      subst hp
      simp [LRpUnip]
    · intro p hp
      simp at hp
    · rintro ⟨hp, -⟩
      simp at hp
  · by_cases h2 : AAcount = 2
    · simp only [analyseAAvariant, if_neg h1, if_pos h2]
      refine ⟨by simp, ?_, ?_, ?_⟩
      · intro p hp
        simp at hp
      · intro p hp
        simp only [Option.some.injEq] at hp
        subst hp
        simp [LRpUnip]
      · rintro ⟨-, hp⟩
        simp at hp
    · simp only [analyseAAvariant, if_neg h1, if_neg h2]
      refine ⟨by simp, ?_, ?_, ?_⟩
      · intro p hp
        simp at hp
      · intro p hp
        simp at hp
      · intro
        simp [LRpUnip]

/-- Witness for the amended claim C10: the univariate p-value 5 passes
through, the exact-zero LR p-value becomes NaN, and the both-NaN tier
yields NaN. -/
theorem claim_C10_witness :
    ((analyseAAvariant (fun _ => "") 2 (AAres.ofStr "F") (0, 0, []) (5, 1)).Uni_p = some 5
      ∧ LRpUnip (analyseAAvariant (fun _ => "") 2 (AAres.ofStr "F") (0, 0, []) (5, 1)).LR_p
          (analyseAAvariant (fun _ => "") 2 (AAres.ofStr "F") (0, 0, []) (5, 1)).Uni_p
        = if (5:ℚ) = 0 then none else some 5)
    ∧ ((analyseAAvariant (fun _ => "") 3 (AAres.ofStr "F") (0, 1, []) (4, 1)).LR_p = some 0
      ∧ LRpUnip (analyseAAvariant (fun _ => "") 3 (AAres.ofStr "F") (0, 1, []) (4, 1)).LR_p
          (analyseAAvariant (fun _ => "") 3 (AAres.ofStr "F") (0, 1, []) (4, 1)).Uni_p
        = if (0:ℚ) = 0 then none else some 0)
    ∧ LRpUnip (analyseAAvariant (fun _ => "") 0 (AAres.ofStr "F") (0, 0, []) (0, 0)).LR_p
        (analyseAAvariant (fun _ => "") 0 (AAres.ofStr "F") (0, 0, []) (0, 0)).Uni_p
      = none :=
  ⟨⟨rfl, (claim_C10_lrp_unip (fun _ => "") 2 (AAres.ofStr "F") (0, 0, []) (5, 1)).2.2.1 5 rfl⟩,
   ⟨rfl, (claim_C10_lrp_unip (fun _ => "") 3 (AAres.ofStr "F") (0, 1, []) (4, 1)).2.1 0 rfl⟩,
   (claim_C10_lrp_unip (fun _ => "") 0 (AAres.ofStr "F") (0, 0, []) (0, 0)).2.2.2 ⟨rfl, rfl⟩⟩

/-- The sorted key list of `checkAAblock` permutes the distinct
characters. -/
lemma keys_perm (chars : List Char) :
    List.Perm (List.insertionSort (countGE chars) chars.dedup) chars.dedup :=
  List.perm_insertionSort _ _

/-- The sorted key list is duplicate-free. -/
lemma keys_nodup (chars : List Char) :
    (List.insertionSort (countGE chars) chars.dedup).Nodup :=
  ((keys_perm chars).nodup_iff).mpr (List.nodup_dedup chars)

/-- The sorted key list has the same members as the character list. -/
lemma keys_mem {chars : List Char} {c : Char} :
    c ∈ List.insertionSort (countGE chars) chars.dedup ↔ c ∈ chars :=
  ((keys_perm chars).mem_iff).trans List.mem_dedup

/-- The key list is sorted by descending count. -/
lemma keys_sorted (chars : List Char) :
    List.Sorted (countGE chars) (List.insertionSort (countGE chars) chars.dedup) :=
  List.sorted_insertionSort _ _

/-- Unfolding `checkAAblock` to its resolver on the sorted key list. -/
lemma checkAAblock_eq_resolve (block : List String) :
    checkAAblock block = resolveBlock block (blockChars block)
      (List.insertionSort (countGE (blockChars block)) (blockChars block).dedup) := rfl

/-- Claim C3 (counterexample): on the block `["F", "F"]` only one
candidate letter occurs, and `checkAAblock` returns the first element
"F", not the original block as is. -/
theorem claim_C3_counterexample :
    checkAAblock ["F", "F"] = AAres.ofStr "F"
    ∧ checkAAblock ["F", "F"] ≠ AAres.ofList ["F", "F"] := by
  constructor <;> decide

/-- Claim C3 (amended): `checkAAblock` returns the strictly most frequent
character when its count strictly exceeds every other character's;
returns the original block unchanged when the top two counts are tied;
returns the first element of the block when only one candidate letter
occurs overall; and returns the empty string for an empty block. -/
theorem claim_C3_majority_resolution (block : List String) :
    (block = [] → checkAAblock block = AAres.ofStr "")
    ∧ (∀ c : Char, c ∈ blockChars block →
        (∃ d ∈ blockChars block, d ≠ c) →
        (∀ d ∈ blockChars block, d ≠ c →
          (blockChars block).count d < (blockChars block).count c) →
        checkAAblock block = AAres.ofStr (String.mk [c]))
    ∧ (∀ c d : Char, c ∈ blockChars block → d ∈ blockChars block → c ≠ d →
        (blockChars block).count c = (blockChars block).count d →
        (∀ e ∈ blockChars block,
          (blockChars block).count e ≤ (blockChars block).count c) →
        checkAAblock block = AAres.ofList block)
    ∧ (∀ c : Char, c ∈ blockChars block → (∀ d ∈ blockChars block, d = c) →
        checkAAblock block = AAres.ofStr (block.headD "")) := by
  refine ⟨?_, ?_, ?_, ?_⟩
  · rintro rfl
    decide
  · -- strict majority
    intro c hc ⟨d0, hd0, hd0c⟩ hstrict
    rw [checkAAblock_eq_resolve]
    set chars := blockChars block with hchars
    rcases hk : List.insertionSort (countGE chars) chars.dedup with _ | ⟨k0, _ | ⟨k1, rest⟩⟩
    · exact absurd (keys_mem.mpr hc) (by rw [hk]; simp)
    · have h1 : c = k0 := by
        have := keys_mem.mpr hc
        rw [hk] at this
        simpa using this
      have h2 : d0 = k0 := by
        have := keys_mem.mpr hd0
        rw [hk] at this
        simpa using this
      exact absurd (h2.trans h1.symm) hd0c
    · have hsort := keys_sorted chars
      rw [hk] at hsort
      obtain ⟨h01, hsort1⟩ := List.sorted_cons.mp hsort
      have hk0c : k0 = c := by
        by_contra hne
        have hcmem : c ∈ k0 :: k1 :: rest := by rw [← hk]; exact keys_mem.mpr hc
        have hctail : c ∈ k1 :: rest := by
          rcases List.mem_cons.mp hcmem with h | h
          · exact absurd h.symm hne
          · exact h
        have hk0chars : k0 ∈ chars := keys_mem.mp (by rw [hk]; exact List.mem_cons_self _ _)
        have hlt : chars.count k0 < chars.count c := hstrict k0 hk0chars hne
        have hle : chars.count c ≤ chars.count k0 := h01 c hctail
        omega
      have hnd := keys_nodup chars
      rw [hk] at hnd
      have hk1ne : k1 ≠ c := by
        rintro rfl
        exact (List.nodup_cons.mp hnd).1 (hk0c ▸ List.mem_cons_self k1 rest)
      have hk1chars : k1 ∈ chars :=
        keys_mem.mp (by rw [hk]; exact List.mem_cons_of_mem _ (List.mem_cons_self _ _))
      have hk1lt : chars.count k1 < chars.count c := hstrict k1 hk1chars hk1ne
      simp only [resolveBlock, List.length_cons, List.getD_cons_zero, List.getD_cons_succ]
      rw [if_pos (by omega), if_pos (by rw [hk0c]; omega)]
      rw [hk0c]
  · -- tie at the top
    intro c d hc hd hcd hcount hmax
    rw [checkAAblock_eq_resolve]
    set chars := blockChars block with hchars
    rcases hk : List.insertionSort (countGE chars) chars.dedup with _ | ⟨k0, _ | ⟨k1, rest⟩⟩
    · exact absurd (keys_mem.mpr hc) (by rw [hk]; simp)
    · have h1 : c = k0 := by
        have := keys_mem.mpr hc
        rw [hk] at this
        simpa using this
      have h2 : d = k0 := by
        have := keys_mem.mpr hd
        rw [hk] at this
        simpa using this
      exact absurd (h1.trans h2.symm) hcd
    · have hsort := keys_sorted chars
      rw [hk] at hsort
      obtain ⟨h01, hsort1⟩ := List.sorted_cons.mp hsort
      obtain ⟨h12, _⟩ := List.sorted_cons.mp hsort1
      have hk0chars : k0 ∈ chars := keys_mem.mp (by rw [hk]; exact List.mem_cons_self _ _)
      have hk1chars : k1 ∈ chars :=
        keys_mem.mp (by rw [hk]; exact List.mem_cons_of_mem _ (List.mem_cons_self _ _))
      have hk0top : chars.count k0 = chars.count c := by
        have hle : chars.count k0 ≤ chars.count c := hmax k0 hk0chars
        have hcmem : c ∈ k0 :: k1 :: rest := by rw [← hk]; exact keys_mem.mpr hc
        rcases List.mem_cons.mp hcmem with h | h
        · rw [h]
        · exact le_antisymm hle (h01 c h)
      have htail : ∃ e, e ∈ k1 :: rest ∧ chars.count e = chars.count c := by
        have hcmem : c ∈ k0 :: k1 :: rest := by rw [← hk]; exact keys_mem.mpr hc
        have hdmem : d ∈ k0 :: k1 :: rest := by rw [← hk]; exact keys_mem.mpr hd
        rcases List.mem_cons.mp hcmem with h | h
        · rcases List.mem_cons.mp hdmem with h2 | h2
          · exact absurd (h.trans h2.symm) hcd
          · exact ⟨d, h2, hcount.symm⟩
        · exact ⟨c, h, rfl⟩
      obtain ⟨e, hemem, hecount⟩ := htail
      have hk1top : chars.count k1 = chars.count c := by
        have hle : chars.count k1 ≤ chars.count c := hmax k1 hk1chars
        rcases List.mem_cons.mp hemem with h | h
        · rw [← h, hecount]
        · have := h12 e h
          unfold countGE at this
          omega
      simp only [resolveBlock, List.length_cons, List.getD_cons_zero, List.getD_cons_succ]
      rw [if_pos (by omega), if_neg (by omega)]
  · -- a single candidate letter
    intro c hc hall
    rw [checkAAblock_eq_resolve]
    set chars := blockChars block with hchars
    have hkl : (List.insertionSort (countGE chars) chars.dedup).length = 1 := by
      rcases hk : List.insertionSort (countGE chars) chars.dedup with _ | ⟨k0, _ | ⟨k1, rest⟩⟩
      · exact absurd (keys_mem.mpr hc) (by rw [hk]; simp)
      · rfl
      · have hnd := keys_nodup chars
        rw [hk] at hnd
        have h0 : k0 = c := hall k0 (keys_mem.mp (by rw [hk]; exact List.mem_cons_self _ _))
        have h1 : k1 = c := hall k1
          (keys_mem.mp (by rw [hk]; exact List.mem_cons_of_mem _ (List.mem_cons_self _ _)))
        have hk01 : k0 = k1 := h0.trans h1.symm
        have hnotmem := (List.nodup_cons.mp hnd).1
        rw [hk01] at hnotmem
        exact absurd (List.mem_cons_self k1 rest) hnotmem
    simp only [resolveBlock, hkl]
    norm_num

/-- Witness for amended claim C3: each branch at a concrete block. -/
theorem claim_C3_witness :
    (checkAAblock [] = AAres.ofStr "")
    ∧ ('F' ∈ blockChars ["FY", "F"]
        ∧ checkAAblock ["FY", "F"] = AAres.ofStr (String.mk ['F']))
    ∧ ('F' ∈ blockChars ["FY"] ∧ 'Y' ∈ blockChars ["FY"]
        ∧ checkAAblock ["FY"] = AAres.ofList ["FY"])
    ∧ ('F' ∈ blockChars ["F", "F"]
        ∧ checkAAblock ["F", "F"] = AAres.ofStr (["F", "F"].headD "")) :=
  ⟨(claim_C3_majority_resolution []).1 rfl,
   ⟨by decide, (claim_C3_majority_resolution ["FY", "F"]).2.1 'F' (by decide)
      ⟨'Y', by decide, by decide⟩ (by decide)⟩,
   ⟨by decide, by decide, (claim_C3_majority_resolution ["FY"]).2.2.1 'F' 'Y'
      (by decide) (by decide) (by decide) (by decide) (by decide)⟩,
   ⟨by decide, (claim_C3_majority_resolution ["F", "F"]).2.2.2 'F'
      (by decide) (by decide)⟩⟩

/-- Claim C8: in the single-row branch of `obt_haplo_hard`, when more
than one label survives the frequency filter, a maximal-frequency column
is dropped as reference and `AAcount` is exactly 2 regardless of how
many labels survived; when exactly one label survives, "missing" is
appended to the amino-acid list, the surviving label becomes the
reference, and `AAcount` is 0. -/
theorem claim_C8_single_row (aadf : AAdf) (h : aadf.ids.length = 1) :
    (1 < (makehaplodf aadf).1.cols.length →
      ∃ rc r, obt_haplo_hard aadf = .ok r ∧ r.AAcount = 2
        ∧ r.refAA = AAres.ofStr rc
        ∧ rc ∈ (makehaplodf aadf).1.cols
        ∧ (∀ l ∈ (makehaplodf aadf).1.cols,
            (makehaplodf aadf).1.colSum l ≤ (makehaplodf aadf).1.colSum rc)
        ∧ rc ∉ r.cols
        ∧ r.aalist = (makehaplodf aadf).1.cols.map AAres.ofStr)
    ∧ (∀ l0, (makehaplodf aadf).1.cols = [l0] →
      ∃ r, obt_haplo_hard aadf = .ok r ∧ r.AAcount = 0
        ∧ r.refAA = AAres.ofStr l0
        ∧ r.aalist = [AAres.ofStr l0, AAres.ofStr "missing"]
        ∧ r.cols = [l0]) := by
  have hne : ¬ 1 < aadf.ids.length := by omega
  constructor
  · intro hlen
    simp only [obt_haplo_hard, if_neg hne, if_pos hlen]
    set M := (makehaplodf aadf).1 with hM
    set sums := M.cols.map (fun l => M.colSum l) with hsums
    set refix := np_argmax sums with hrefix
    set rc := M.cols.getD refix "" with hrc
    have hnil : M.cols ≠ [] := by
      intro hnil
      rw [hnil] at hlen
      simp at hlen
    have hsumslen : sums.length = M.cols.length := by rw [hsums, List.length_map]
    have hix : refix < M.cols.length := by
      have hs : sums ≠ [] := by
        rw [hsums]
        simpa using hnil
      have := np_argmax_lt sums hs
      rw [hsumslen] at this
      exact this
    have hrceq : rc = M.cols[refix] := by
      rw [hrc, List.getD_eq_getElem?_getD, List.getElem?_eq_getElem hix]
      simp
    have hrcmem : rc ∈ M.cols := by
      rw [hrceq]
      exact List.getElem_mem hix
    have hmax : ∀ l ∈ M.cols, M.colSum l ≤ M.colSum rc := by
      intro l hl
      obtain ⟨i, hi, hil⟩ := List.mem_iff_getElem.mp hl
      have h1 : sums.getD i 0 = M.colSum l := by
        rw [hsums, List.getD_eq_getElem?_getD, List.getElem?_map,
          List.getElem?_eq_getElem hi]
        simp [hil]
      have h2 : sums.getD refix 0 = M.colSum rc := by
        rw [hsums, List.getD_eq_getElem?_getD, List.getElem?_map,
          List.getElem?_eq_getElem hix]
        simp [hrceq]
      have h3 := np_argmax_getD_le sums i
      rw [h1] at h3
      rw [← hrefix] at h3
      rw [h2] at h3
      exact h3
    have hdrop : dropCol M.cols rc = .ok (M.cols.filter (fun c => c != rc)) := by
      rw [dropCol, if_pos hrcmem]
    rw [hdrop]
    refine ⟨rc, ⟨M.cols.filter (fun c => c != rc), 2, AAres.ofStr rc,
      M.cols.map AAres.ofStr, (M.cols.filter (fun c => c != rc)).length⟩,
      rfl, rfl, rfl, hrcmem, hmax, ?_, rfl⟩
    intro hmem
    have := List.of_mem_filter hmem
    simp at this
  · intro l0 hcols
    simp only [obt_haplo_hard, if_neg hne, hcols]
    norm_num

/-- Witness for claim C8: both single-row branches at concrete slices. -/
theorem claim_C8_witness :
    (snpV1.ids.length = 1 ∧ 1 < (makehaplodf snpV1).1.cols.length
      ∧ ∃ rc r, obt_haplo_hard snpV1 = .ok r ∧ r.AAcount = 2
          ∧ r.refAA = AAres.ofStr rc ∧ rc ∈ (makehaplodf snpV1).1.cols
          ∧ (∀ l ∈ (makehaplodf snpV1).1.cols,
              (makehaplodf snpV1).1.colSum l ≤ (makehaplodf snpV1).1.colSum rc)
          ∧ rc ∉ r.cols ∧ r.aalist = (makehaplodf snpV1).1.cols.map AAres.ofStr)
    ∧ (snpV2.ids.length = 1 ∧ (makehaplodf snpV2).1.cols = ["T"]
      ∧ ∃ r, obt_haplo_hard snpV2 = .ok r ∧ r.AAcount = 0
          ∧ r.refAA = AAres.ofStr "T"
          ∧ r.aalist = [AAres.ofStr "T", AAres.ofStr "missing"] ∧ r.cols = ["T"]) :=
  ⟨⟨rfl, by decide, (claim_C8_single_row snpV1 rfl).1 (by decide)⟩,
   ⟨rfl, by decide, (claim_C8_single_row snpV2 rfl).2 "T" (by decide)⟩⟩
